import Mathlib

/-!
Verification of the embedded serverless function subsystem
(`NodeJSServerlessHandler`, src/nodejs-serverless-handler.ts).

The JavaScript functions are shallowly embedded as executable Lean
definitions.  JavaScript values flowing through the result normalizer are
modelled by the inductive type `JSValue`; the mock response builder is a
state record `MockState` with its four mutating methods as state
transformers; the registry (`Map<string, NodeJSDeployedFunction>`) is an
association list with JavaScript `Map` update/delete semantics.  Effects
that live outside a shallow embedding (the real `vm` run, `fs` calls,
`new Script` compilation, wall-clock time) are abstracted: the VM run of
a looked-up function is an oracle parameter `Except String JSValue`
together with the final builder state, the outcome of the `new Script`
parse of the wrapped source is an `Option String` oracle, and filesystem
steps are modelled as succeeding (each such point is noted at its
definition).
-/

/-- Model of a JavaScript runtime value, as needed by the result
normalizer and the mock response builder (undefined, null, booleans,
numbers, strings, plain objects as ordered field lists). -/
inductive JSValue where
  | undef
  | null
  | bool (b : Bool)
  | num (n : Int)
  | str (s : String)
  | obj (fields : List (String × JSValue))

/-- Association-list field lookup: first binding wins, a missing field
reads as `undefined`, exactly as JavaScript property access on a plain
object. -/
def findField : List (String × JSValue) → String → JSValue
  | [], _ => JSValue.undef
  | (k, v) :: rest, key => if k = key then v else findField rest key

/-- Property access `v.key` as used by `extractResponseData`: objects use
field lookup, any other value yields `undefined` (the guarding truthiness
check in the source rules out the null/undefined throw cases). -/
def getField (v : JSValue) (key : String) : JSValue :=
  match v with
  | JSValue.obj fields => findField fields key
  | _ => JSValue.undef

/-- Test for the JavaScript `undefined` value (the `!== undefined`
comparisons in `extractResponseData`). -/
def isUndef : JSValue → Bool
  | JSValue.undef => true
  | _ => false

/-- JavaScript truthiness, used by `result && ...` and `result.headers || {}`. -/
def truthy : JSValue → Bool
  | JSValue.undef => false
  | JSValue.null => false
  | JSValue.bool b => b
  | JSValue.num n => n != 0
  | JSValue.str s => !s.isEmpty
  | JSValue.obj _ => true

/-- Header-map assignment `responseHeaders[name] = value`: overwrite in
place when the key exists, append otherwise (JavaScript object key
insertion order). -/
def setHdr : List (String × String) → String → String → List (String × String)
  | [], key, v => [(key, v)]
  | (k, w) :: rest, key, v => if k = key then (key, v) :: rest else (k, w) :: setHdr rest key v

/-- State of the closure created by `createMockResponse` (lines 216-245):
`responseData` starts undefined, `statusCode` starts 200, `responseHeaders`
starts empty. -/
structure MockState where
  responseData : JSValue
  statusCode : Int
  headers : List (String × String)

/-- Initial mock response state produced by `createMockResponse`. -/
def initMockState : MockState :=
  { responseData := JSValue.undef, statusCode := 200, headers := [] }

/-- Calls a caller can make on the mock response object. -/
inductive MockOp where
  | json (v : JSValue)
  | text (s : String)
  | status (code : Int)
  | setHeader (name value : String)

/-- Effect of one mock-response method on the closure state, translated
from `createMockResponse`: `json` stores the value and sets the
content-type header to application/json, `text` stores a string and sets
text/plain, `status` overwrites the status code, `setHeader` lowercases
the name and stores the value. -/
def applyOp (st : MockState) : MockOp → MockState
  | MockOp.json v =>
      { st with responseData := v,
                headers := setHdr st.headers ("content-type") ("application/json") }
  | MockOp.text s =>
      { st with responseData := JSValue.str s,
                headers := setHdr st.headers ("content-type") ("text/plain") }
  | MockOp.status code => { st with statusCode := code }
  | MockOp.setHeader name value =>
      { st with headers := setHdr st.headers (name.toLower) value }

/-- View of the accumulated header map as a JavaScript object
(`getHeaders()` returns a copy). -/
def headersToObj (hs : List (String × String)) : JSValue :=
  JSValue.obj (hs.map (fun p => (p.1, JSValue.str p.2)))

/-- Result normalizer `extractResponseData` (lines 346-368).  Shape A:
the returned value is truthy with `body` and `status` both defined.
Shape B: otherwise, the builder holds a defined `responseData`.  Shape C:
otherwise the raw return value. -/
def extractResponseData (result : JSValue) (st : MockState) : JSValue :=
  if truthy result && !isUndef (getField result ("body")) && !isUndef (getField result ("status")) then
    JSValue.obj [("data", getField result ("body")),
                 ("status", getField result ("status")),
                 ("headers", if truthy (getField result ("headers")) then getField result ("headers") else JSValue.obj [])]
  else if !isUndef st.responseData then
    JSValue.obj [("data", st.responseData),
                 ("status", JSValue.num st.statusCode),
                 ("headers", headersToObj st.headers)]
  else result

/-- Fixed module allow-list of the restricted `require` in
`createExecutionContext` (line 285). -/
def allowedModules : List String := ["crypto", "util", "url", "querystring"]

/-- Restricted dependency loader (lines 283-290): an allow-listed module
is loaded (modelled by returning its name as a token for the loaded
module), any other name raises an error message naming the module. -/
def sandboxRequire (moduleName : String) : Except String String :=
  if allowedModules.contains moduleName then Except.ok moduleName
  else Except.error ("Module \x27" ++ moduleName ++ "\x27 is not allowed in serverless functions")

/-- Loader exposed in the execution context built for a deployed function.
The source closure (lines 283-290) does not reference the deploy-time
import-map configuration at all (`createExecutionContext` is not even
passed it); the parameter here records that configuration so that
independence from it can be stated. -/
def contextRequire (importMap : List (String × String)) (moduleName : String) :
    Except String String :=
  sandboxRequire moduleName

/-- Character class of the JavaScript regex `\w` ([A-Za-z0-9_]). -/
def isWordChar (c : Char) : Bool := c.isAlpha || c.isDigit || c = '_'

/-- ASCII portion of the JavaScript regex `\s` (space, tab, newline,
carriage return, vertical tab, form feed). -/
def isSpaceJS (c : Char) : Bool :=
  c = ' ' || c = '\t' || c = '\n' || c = '\r' || c = '\x0b' || c = '\x0c'

/-- Whitespace trim at both ends, the model of the JavaScript
String.prototype.trim calls (`functionCode.trim()`, `lastLine.trim()`,
`code.trim()`), over the ASCII whitespace class. -/
def jsTrimList (cs : List Char) : List Char :=
  ((cs.dropWhile isSpaceJS).reverse.dropWhile isSpaceJS).reverse

/-- String form of `jsTrimList`. -/
def jsTrim (s : String) : String := String.mk (jsTrimList s.data)

/-- Split on newline, the model of `split('\n')`: the empty string
yields one empty piece, exactly as in JavaScript. -/
def splitNl : List Char → List (List Char)
  | [] => [[]]
  | c :: rest =>
    match splitNl rest with
    | [] => [[]]
    | line :: more => if c = '\n' then [] :: line :: more else (c :: line) :: more

/-- Keyword of the first regex alternative `function\s+(\w+)`. -/
def kwFunction : List Char := ['f', 'u', 'n', 'c', 't', 'i', 'o', 'n']

/-- Keyword of the regex alternative `const\s+(\w+)\s*=`. -/
def kwConst : List Char := ['c', 'o', 'n', 's', 't']

/-- Keyword of the regex alternative `let\s+(\w+)\s*=`. -/
def kwLet : List Char := ['l', 'e', 't']

/-- Keyword of the regex alternative `var\s+(\w+)\s*=`. -/
def kwVar : List Char := ['v', 'a', 'r']

/-- Consume an exact keyword at the front of the input, returning the
remainder, or fail. -/
def stripKw : List Char → List Char → Option (List Char)
  | [], cs => some cs
  | _ :: _, [] => none
  | k :: ks, c :: cs => if c = k then stripKw ks cs else none

/-- Match the part of a regex alternative after its keyword:
`\s+(\w+)` and, when `needsEq` is true, the trailing `\s*=`.  Greedy
matching with no feasible backtracking (after a maximal `\w+` run the
next character is not a word character, so shorter runs cannot help),
hence the maximal-munch formulation is exact. -/
def matchTail (needsEq : Bool) (cs : List Char) : Option (String × List Char) :=
  let sp := cs.takeWhile isSpaceJS
  if sp.isEmpty then none
  else
    let cs1 := cs.dropWhile isSpaceJS
    let w := cs1.takeWhile isWordChar
    if w.isEmpty then none
    else
      let cs2 := cs1.dropWhile isWordChar
      if needsEq then
        match cs2.dropWhile isSpaceJS with
        | '=' :: cs4 => some (String.mk w, cs4)
        | _ => none
      else some (String.mk w, cs2)

/-- One attempt of the declaration regex
`(?:function\s+(\w+)|const\s+(\w+)\s*=|let\s+(\w+)\s*=|var\s+(\w+)\s*=)`
at the current position (line 472).  The four alternatives start with
distinct letters, so at most one keyword can match at a given position
and the alternative order is immaterial. -/
def tryMatch (cs : List Char) : Option (String × List Char) :=
  match stripKw kwFunction cs with
  | some r => matchTail false r
  | none =>
    match stripKw kwConst cs with
    | some r => matchTail true r
    | none =>
      match stripKw kwLet cs with
      | some r => matchTail true r
      | none =>
        match stripKw kwVar cs with
        | some r => matchTail true r
        | none => none

/-- Fuel-indexed engine of the `regex.exec` loop in
`extractFunctionNames` (lines 471-484): scan left to right; at a match,
push the captured name unless it is a reserved name and continue after
the consumed text; otherwise advance one character.  Every step consumes
at least one character, so fuel equal to the input length is exact. -/
def scanAux (fuel : Nat) (cs : List Char) : List String :=
  match fuel with
  | 0 => []
  | fuel' + 1 =>
    match tryMatch cs with
    | some (name, rest) =>
        if name = "require" ∨ name = "module" then scanAux fuel' rest
        else name :: scanAux fuel' rest
    | none =>
      match cs with
      | [] => []
      | _ :: cs' => scanAux fuel' cs'

/-- Declaration scan over a whole source text at its exact fuel. -/
def scanDecls (cs : List Char) : List String := scanAux cs.length cs

/-- Declaration-name scan `extractFunctionNames` (lines 471-484). -/
def extractFunctionNames (code : String) : List String := scanDecls code.data

/-- Single-character containment, the model of
`lastLine.includes(c)` for a one-character search string. -/
def containsChar (s : String) (c : Char) : Bool := s.data.any (fun a => a == c)

/-- Last line of the trimmed source, trimmed — the entry-point heuristic
input of `wrapFunctionForNodeJS` (lines 375-376):
`functionCode.trim().split('\n')` and then the last element, trimmed. -/
def lastLineOf (code : String) : String :=
  String.mk (jsTrimList ((splitNl (jsTrimList code.data)).getLastD []))

/-- Outcome of `wrapFunctionForNodeJS`: which of the two wrapper template
strings is produced, and the data spliced into it.  `bareName source
entry` stands for the template at lines 381-398 (runs `source` verbatim,
then calls `entry` with the request view as its single argument);
`general source names` stands for the async module-exports template at
lines 402-465 (whose declaration-probe list is `names`). -/
inductive Wrapped where
  | bareName (source : String) (entry : String)
  | general (source : String) (names : List String)

/-- Code transformer `wrapFunctionForNodeJS` (lines 373-466): if the
last line of the trimmed source is non-empty and contains none of the
characters left parenthesis, left brace, semicolon, produce the
bare-name wrapper that calls that last line as the entry point;
otherwise produce the general wrapper whose probe list is the
declaration scan of the source. -/
def wrapFunctionForNodeJS (functionCode : String) : Wrapped :=
  let lastLine := lastLineOf functionCode
  if !lastLine.isEmpty && !containsChar lastLine '(' && !containsChar lastLine '\x7b' && !containsChar lastLine ';' then
    Wrapped.bareName functionCode lastLine
  else
    Wrapped.general functionCode (extractFunctionNames functionCode)

/-- Function name validation `isValidFunctionName` (lines 489-491):
the regex `^[a-z0-9-]+$` together with a length between 1 and 50. -/
def isValidFunctionName (name : String) : Bool :=
  (!name.data.isEmpty && name.data.all (fun c => c.isLower || c.isDigit || c = '-'))
    && 1 ≤ name.length && name.length ≤ 50

/-- Source validation `validateFunctionCode` (lines 496-519): a source
that trims to the empty string or exceeds 100000 characters is rejected
(the dangerous-pattern scan at lines 506-518 only logs warnings and
never rejects, so it has no effect on the result). -/
def validateFunctionCode (code : String) : Except String Unit :=
  if jsTrim code = "" then Except.error ("Function code cannot be empty")
  else if code.length > 100000 then Except.error ("Function code too large (max 100KB)")
  else Except.ok ()

/-- Registry record for one deployed function (`NodeJSDeployedFunction`,
lines 523-532).  The on-disk directory, the `deployedAt` wall-clock
timestamp and the compiled `Script` handle live outside the embedding
and are omitted. -/
structure DeployedFunction where
  name : String
  originalCode : String
  wrapped : Wrapped
  importMap : List (String × String)
  status : String

/-- Registry `functions: Map<string, NodeJSDeployedFunction>` as an
association list in insertion order. -/
abbrev Registry := List (String × DeployedFunction)

/-- Lookup `functions.get(name)`. -/
def lookupFn : Registry → String → Option DeployedFunction
  | [], _ => none
  | (k, f) :: rest, name => if k = name then some f else lookupFn rest name

/-- Update `functions.set(name, f)`: overwrite in place when the key
exists, append otherwise. -/
def setEntry : Registry → String → DeployedFunction → Registry
  | [], name, f => [(name, f)]
  | (k, g) :: rest, name, f =>
      if k = name then (name, f) :: rest else (k, g) :: setEntry rest name f

/-- Deletion `functions.delete(name)`. -/
def removeEntry : Registry → String → Registry
  | [], _ => []
  | (k, g) :: rest, name => if k = name then rest else (k, g) :: removeEntry rest name

/-- Key list `Array.from(this.functions.keys())`. -/
def registryKeys (reg : Registry) : List String := reg.map (fun p => p.1)

/-- Result record of `deployFunction` (`NodeJSDeploymentResult`, lines
534-543); the wall-clock `deployedAt` field is omitted. -/
structure DeploymentResult where
  success : Bool
  functionName : String
  message : Option String
  error : Option String
  functionUrl : Option String
  codeLength : Option Nat

/-- Deployment `deployFunction` (lines 37-88) over an explicit registry:
validate the name, then the code, then compile and store the wrapped
function and report success; any throw inside the try is caught and
returned as a failure result.  The `fs.mkdir` call is an environmental
effect outside the embedding and is modelled as succeeding.  The
`new Script(wrappedCode)` construction at line 67 is a JavaScript parse
of the wrapped source and can throw on input-determined syntax errors
(for example the source consisting of a lone closing brace); it is
abstracted by the oracle `scriptError`: `none` means the construction
succeeded, `some e` means it threw with message `e`, in which case the
catch returns a failure result and the registry is untouched. -/
def deployFunction (reg : Registry) (functionName : String) (functionCode : String)
    (importMap : List (String × String)) (scriptError : Option String) :
    DeploymentResult × Registry :=
  if !isValidFunctionName functionName then
    ({ success := false, functionName := functionName, message := none,
       error := some ("Invalid function name. Use only letters, numbers, and hyphens."),
       functionUrl := none, codeLength := none }, reg)
  else
    match validateFunctionCode functionCode with
    | Except.error e =>
        ({ success := false, functionName := functionName, message := none,
           error := some e, functionUrl := none, codeLength := none }, reg)
    | Except.ok _ =>
        match scriptError with
        | some e =>
            ({ success := false, functionName := functionName, message := none,
               error := some e, functionUrl := none, codeLength := none }, reg)
        | none =>
            let f : DeployedFunction :=
              { name := functionName, originalCode := functionCode,
                wrapped := wrapFunctionForNodeJS functionCode,
                importMap := importMap, status := "deployed" }
            ({ success := true, functionName := functionName,
               message := some ("Function \x27" ++ functionName ++ "\x27 deployed successfully to Node.js handler"),
               error := none,
               functionUrl := some ("/functions/v1/" ++ functionName),
               codeLength := some functionCode.length }, setEntry reg functionName f)

/-- Result record of `executeFunction` (`NodeJSExecutionResult`, lines
545-556); the wall-clock `executionTime` and `timestamp` fields are
omitted. -/
structure ExecutionResult where
  success : Bool
  functionName : String
  data : Option JSValue
  error : Option String
  statusCode : Option Nat
  availableFunctions : Option (List String)
  headers : Option (List (String × String))

/-- Execution `executeFunction` (lines 93-145) over an explicit
registry.  The actual VM run of the compiled script (lines 318-341) is
outside the embedding; it is abstracted by an oracle: `vmOutcome` is the
value the run produced (or the error it threw, including a timeout
thrown by the runtime), and `finalRes` is the mock response state after
the run.  Everything downstream of the oracle — the not-found fast path,
result normalization, and result assembly — is translated from the
source. -/
def executeFunction (reg : Registry) (functionName : String)
    (vmOutcome : Except String JSValue) (finalRes : MockState) : ExecutionResult :=
  match lookupFn reg functionName with
  | none =>
      { success := false, functionName := functionName, data := none,
        error := some ("Function \x27" ++ functionName ++ "\x27 not found. Deploy it first using deployFunction()."),
        statusCode := none,
        availableFunctions := some (registryKeys reg), headers := none }
  | some _ =>
      match vmOutcome with
      | Except.ok v =>
          { success := true, functionName := functionName,
            data := some (extractResponseData v finalRes),
            error := none, statusCode := some 200,
            availableFunctions := none, headers := some finalRes.headers }
      | Except.error e =>
          { success := false, functionName := functionName, data := none,
            error := some e, statusCode := none,
            availableFunctions := none, headers := none }

/-- Removal `removeFunction` (lines 164-185): absent names report
`false`; for a present name the directory cleanup is attempted
(`cleanupOk` abstracts whether `fs.rm` succeeds), and on either branch —
the normal path or the catch that merely logs the cleanup failure — the
entry is deleted from the registry and `true` is reported. -/
def removeFunction (reg : Registry) (functionName : String) (cleanupOk : Bool) :
    Bool × Registry :=
  match lookupFn reg functionName with
  | none => (false, reg)
  | some _ =>
      if cleanupOk then (true, removeEntry reg functionName)
      else (true, removeEntry reg functionName)

/-- Absence of a name from the key list forces the lookup to fail. -/
theorem lookupFn_eq_none_of_not_mem (reg : Registry) (name : String)
    (h : name ∉ registryKeys reg) : lookupFn reg name = none := by
  induction reg with
  | nil => rfl
  | cons p rest ih =>
    obtain ⟨k, f⟩ := p
    rw [show registryKeys ((k, f) :: rest) = k :: registryKeys rest from rfl,
        List.mem_cons] at h
    push_neg at h
    simp [lookupFn, Ne.symm h.1, ih h.2]

/-- Successful lookup puts the name among the keys. -/
theorem mem_keys_of_lookupFn (reg : Registry) (name : String) (f : DeployedFunction)
    (h : lookupFn reg name = some f) : name ∈ registryKeys reg := by
  induction reg with
  | nil => simp [lookupFn] at h
  | cons p rest ih =>
    obtain ⟨k, g⟩ := p
    rw [show registryKeys ((k, g) :: rest) = k :: registryKeys rest from rfl,
        List.mem_cons]
    by_cases hk : k = name
    · exact Or.inl hk.symm
    · simp only [lookupFn, if_neg hk] at h
      exact Or.inr (ih h)

/-- Deleting a key from a registry with no duplicate keys makes its
lookup fail. -/
theorem lookupFn_removeEntry_self (reg : Registry) (name : String)
    (hnd : (registryKeys reg).Nodup) : lookupFn (removeEntry reg name) name = none := by
  induction reg with
  | nil => rfl
  | cons p rest ih =>
    obtain ⟨k, g⟩ := p
    rw [show registryKeys ((k, g) :: rest) = k :: registryKeys rest from rfl,
        List.nodup_cons] at hnd
    by_cases hk : k = name
    · subst hk
      simp only [removeEntry, if_pos rfl]
      exact lookupFn_eq_none_of_not_mem rest k hnd.1
    · simp [removeEntry, hk, lookupFn, ih hnd.2]

/-- C3: the restricted loader permits exactly the fixed allow-list
crypto, util, url, querystring; every allowed name loads, every other
name raises an error message naming the attempted module; and the loader
exposed in the execution context ignores the deploy-time import-map
configuration entirely. -/
theorem c3_restricted_require_allowlist :
    allowedModules = ["crypto", "util", "url", "querystring"]
    ∧ (∀ m, m ∈ allowedModules → sandboxRequire m = Except.ok m)
    ∧ (∀ m, m ∉ allowedModules →
        sandboxRequire m =
          Except.error ("Module \x27" ++ m ++ "\x27 is not allowed in serverless functions"))
    ∧ (∀ im1 im2 : List (String × String), ∀ m,
        contextRequire im1 m = contextRequire im2 m) := by
  refine ⟨rfl, ?_, ?_, ?_⟩
  · intro m hm
    simp [sandboxRequire, hm]
  · intro m hm
    simp [sandboxRequire, hm]
  · intro im1 im2 m
    rfl

/-- Witness for C3 at concrete inputs: crypto is allowed and loads, fs
is refused with a message naming it, and two different import maps give
the same loader behaviour. -/
theorem c3_witness :
    ("crypto" ∈ allowedModules ∧ sandboxRequire ("crypto") = Except.ok ("crypto"))
    ∧ ("fs" ∉ allowedModules ∧ sandboxRequire ("fs") =
        Except.error ("Module \x27fs\x27 is not allowed in serverless functions"))
    ∧ contextRequire [] ("fs") = contextRequire [("fs", "node:fs")] ("fs") :=
  ⟨⟨by decide, c3_restricted_require_allowlist.2.1 ("crypto") (by decide)⟩,
   ⟨by decide, c3_restricted_require_allowlist.2.2.1 ("fs") (by decide)⟩,
   c3_restricted_require_allowlist.2.2.2 [] [("fs", "node:fs")] ("fs")⟩

/-- C6: executing a name absent from the registry fails fast: the result
does not depend on what any VM run would produce (no code runs), it
reports failure, its error message names the function, and its
availableFunctions field is the current registry key list. -/
theorem c6_execute_not_found (reg : Registry) (name : String)
    (h : name ∉ registryKeys reg)
    (vm1 vm2 : Except String JSValue) (st1 st2 : MockState) :
    executeFunction reg name vm1 st1 = executeFunction reg name vm2 st2
    ∧ (executeFunction reg name vm1 st1).success = false
    ∧ (executeFunction reg name vm1 st1).error =
        some ("Function \x27" ++ name ++ "\x27 not found. Deploy it first using deployFunction().")
    ∧ (executeFunction reg name vm1 st1).availableFunctions = some (registryKeys reg) := by
  have hl := lookupFn_eq_none_of_not_mem reg name h
  simp [executeFunction, hl]

/-- Witness for C6: a never-deployed name against a one-entry registry. -/
theorem c6_witness :
    "never-deployed" ∉ registryKeys [("x", ⟨"x", "1", Wrapped.general ("1") [], [], "deployed"⟩)]
    ∧ (executeFunction [("x", ⟨"x", "1", Wrapped.general ("1") [], [], "deployed"⟩)]
        ("never-deployed") (Except.ok JSValue.null) initMockState).success = false
    ∧ (executeFunction [("x", ⟨"x", "1", Wrapped.general ("1") [], [], "deployed"⟩)]
        ("never-deployed") (Except.ok JSValue.null) initMockState).error =
        some ("Function \x27never-deployed\x27 not found. Deploy it first using deployFunction().")
    ∧ (executeFunction [("x", ⟨"x", "1", Wrapped.general ("1") [], [], "deployed"⟩)]
        ("never-deployed") (Except.ok JSValue.null) initMockState).availableFunctions = some ["x"] := by
  have h : "never-deployed" ∉ registryKeys [("x", (⟨"x", "1", Wrapped.general ("1") [], [], "deployed"⟩ : DeployedFunction))] := by
    decide
  have := c6_execute_not_found [("x", ⟨"x", "1", Wrapped.general ("1") [], [], "deployed"⟩)]
    ("never-deployed") h (Except.ok JSValue.null) (Except.error ("e")) initMockState initMockState
  exact ⟨h, this.2.1, this.2.2.1, by rw [this.2.2.2]; rfl⟩

/-- C7: removing an undeployed name reports false and leaves the
registry alone; removing a deployed name reports true and deletes the
registry entry whether or not the scratch-directory cleanup succeeds
(the cleanup failure is only logged), so a subsequent execute of that
name takes the not-found path. -/
theorem c7_remove_semantics (reg : Registry) (name : String) :
    (∀ cleanupOk, name ∉ registryKeys reg → removeFunction reg name cleanupOk = (false, reg))
    ∧ (∀ cleanupOk f, lookupFn reg name = some f →
        removeFunction reg name cleanupOk = (true, removeEntry reg name)
        ∧ ((registryKeys reg).Nodup →
            ∀ vm st,
              (executeFunction (removeEntry reg name) name vm st).success = false
              ∧ (executeFunction (removeEntry reg name) name vm st).error =
                  some ("Function \x27" ++ name ++ "\x27 not found. Deploy it first using deployFunction()."))) := by
  constructor
  · intro cleanupOk h
    simp [removeFunction, lookupFn_eq_none_of_not_mem reg name h]
  · intro cleanupOk f h
    constructor
    · cases cleanupOk <;> simp [removeFunction, h]
    · intro hnd vm st
      have hl := lookupFn_removeEntry_self reg name hnd
      simp [executeFunction, hl]

/-- Witness for C7: removing x when undeployed reports false; after a
deploy of x, removal reports true, deletes the entry regardless of a
failing cleanup, and the subsequent execute fails with the not-found
error. -/
theorem c7_witness :
    removeFunction [] ("x") true = (false, [])
    ∧ removeFunction [("x", ⟨"x", "1", Wrapped.general ("1") [], [], "deployed"⟩)] ("x") false =
        (true, [])
    ∧ (executeFunction [] ("x") (Except.ok JSValue.null) initMockState).success = false
    ∧ (executeFunction [] ("x") (Except.ok JSValue.null) initMockState).error =
        some ("Function \x27x\x27 not found. Deploy it first using deployFunction().") := by
  have h1 := (c7_remove_semantics [] ("x")).1 true (by decide)
  have h2 := (c7_remove_semantics [("x", ⟨"x", "1", Wrapped.general ("1") [], [], "deployed"⟩)] ("x")).2
    false ⟨"x", "1", Wrapped.general ("1") [], [], "deployed"⟩ (by rfl)
  have h3 := (h2.2 (by decide) (Except.ok JSValue.null) initMockState)
  exact ⟨h1, h2.1, h3.1, h3.2⟩

/-- C8: a deploy rejected by validation (bad name, blank source, or
oversized source) returns a failure result carrying an error message and
leaves the registry exactly as it was: no entry is created or
overwritten. -/
theorem c8_deploy_atomic_on_validation_failure (reg : Registry) (name code : String)
    (im : List (String × String)) (scriptError : Option String)
    (h : isValidFunctionName name = false ∨ jsTrim code = "" ∨ code.length > 100000) :
    (deployFunction reg name code im scriptError).1.success = false
    ∧ ((deployFunction reg name code im scriptError).1.error).isSome = true
    ∧ (deployFunction reg name code im scriptError).2 = reg := by
  cases hn : isValidFunctionName name with
  | false => simp [deployFunction, hn]
  | true =>
    rcases h with h | h | h
    · rw [hn] at h
      exact absurd h (by simp)
    · simp [deployFunction, hn, validateFunctionCode, h]
    · by_cases ht : jsTrim code = ""
      · simp [deployFunction, hn, validateFunctionCode, ht]
      · simp [deployFunction, hn, validateFunctionCode, ht, h]

/-- Witness for C8: an upper-case/underscore name is rejected and an
empty registry stays empty. -/
theorem c8_witness :
    (isValidFunctionName ("Has_Upper") = false ∨ jsTrim ("x") = "" ∨ ("x" : String).length > 100000)
    ∧ (deployFunction [] ("Has_Upper") ("x") [] none).1.success = false
    ∧ ((deployFunction [] ("Has_Upper") ("x") [] none).1.error).isSome = true
    ∧ (deployFunction [] ("Has_Upper") ("x") [] none).2 = [] := by
  have h : isValidFunctionName ("Has_Upper") = false ∨ jsTrim ("x") = "" ∨ ("x" : String).length > 100000 :=
    Or.inl (by decide)
  have := c8_deploy_atomic_on_validation_failure [] ("Has_Upper") ("x") [] none h
  exact ⟨h, this⟩

/-- C10: on the success path of execute, the public statusCode field is
the constant 200 no matter what value the function produced and no
matter what status was written to the response builder; the normalized
outcome, holding any function-chosen status, sits inside the data field. -/
theorem c10_top_level_status_always_200 (reg : Registry) (name : String)
    (f : DeployedFunction) (h : lookupFn reg name = some f)
    (v : JSValue) (st : MockState) :
    (executeFunction reg name (Except.ok v) st).success = true
    ∧ (executeFunction reg name (Except.ok v) st).statusCode = some 200
    ∧ (executeFunction reg name (Except.ok v) st).data = some (extractResponseData v st) := by
  simp [executeFunction, h]

/-- Witness for C10: a function that set status 404 via the builder and
returned nothing still reports top-level statusCode 200, with 404 only
inside the normalized data. -/
theorem c10_witness :
    lookupFn [("f", ⟨"f", "1", Wrapped.general ("1") [], [], "deployed"⟩)] ("f") =
      some ⟨"f", "1", Wrapped.general ("1") [], [], "deployed"⟩
    ∧ (executeFunction [("f", ⟨"f", "1", Wrapped.general ("1") [], [], "deployed"⟩)] ("f")
        (Except.ok JSValue.undef)
        (applyOp (applyOp initMockState (MockOp.status 404)) (MockOp.json (JSValue.str ("missing"))))).statusCode = some 200
    ∧ (executeFunction [("f", ⟨"f", "1", Wrapped.general ("1") [], [], "deployed"⟩)] ("f")
        (Except.ok JSValue.undef)
        (applyOp (applyOp initMockState (MockOp.status 404)) (MockOp.json (JSValue.str ("missing"))))).data =
        some (JSValue.obj [("data", JSValue.str ("missing")),
                           ("status", JSValue.num 404),
                           ("headers", JSValue.obj [("content-type", JSValue.str ("application/json"))])]) := by
  have h := c10_top_level_status_always_200
    [("f", ⟨"f", "1", Wrapped.general ("1") [], [], "deployed"⟩)] ("f")
    ⟨"f", "1", Wrapped.general ("1") [], [], "deployed"⟩ (by rfl)
    JSValue.undef
    (applyOp (applyOp initMockState (MockOp.status 404)) (MockOp.json (JSValue.str ("missing"))))
  exact ⟨by rfl, h.2.1, by rw [h.2.2]; rfl⟩

/-- C2: the normalizer applies its shapes in the fixed order A, B, C.
A result that is truthy with both body and status defined is mapped
directly (Shape A); only otherwise, a defined builder value is read back
together with the builder status and headers (Shape B); otherwise the
raw result is the outcome (Shape C).  In particular a run that wrote a
defined value through the builder json method and returned a plain
object with no body/status fields yields the written value as the
outcome data, not the returned object. -/
theorem c2_normalizer_precedence :
    (∀ (r : JSValue) (st : MockState),
        (truthy r && !isUndef (getField r ("body")) && !isUndef (getField r ("status"))) = true →
        extractResponseData r st =
          JSValue.obj [("data", getField r ("body")),
                       ("status", getField r ("status")),
                       ("headers", if truthy (getField r ("headers")) then getField r ("headers") else JSValue.obj [])])
    ∧ (∀ (r : JSValue) (st : MockState),
        (truthy r && !isUndef (getField r ("body")) && !isUndef (getField r ("status"))) = false →
        isUndef st.responseData = false →
        extractResponseData r st =
          JSValue.obj [("data", st.responseData),
                       ("status", JSValue.num st.statusCode),
                       ("headers", headersToObj st.headers)])
    ∧ (∀ (r : JSValue) (st : MockState),
        (truthy r && !isUndef (getField r ("body")) && !isUndef (getField r ("status"))) = false →
        isUndef st.responseData = true →
        extractResponseData r st = r)
    ∧ (∀ (st : MockState) (v r : JSValue),
        isUndef v = false →
        getField r ("body") = JSValue.undef →
        getField r ("status") = JSValue.undef →
        getField (extractResponseData r (applyOp st (MockOp.json v))) ("data") = v) := by
  refine ⟨?_, ?_, ?_, ?_⟩
  · intro r st h
    simp only [extractResponseData, h, if_true]
  · intro r st h hb
    simp only [extractResponseData, h, Bool.false_eq_true, if_false, hb,
      Bool.not_false, if_true]
  · intro r st h hb
    simp only [extractResponseData, h, Bool.false_eq_true, if_false, hb,
      Bool.not_true, if_false]
  · intro st v r hv hb hs
    have hA : (truthy r && !isUndef (getField r ("body")) && !isUndef (getField r ("status"))) = false := by
      simp [hb, isUndef]
    have hst : (applyOp st (MockOp.json v)).responseData = v := rfl
    have hB : extractResponseData r (applyOp st (MockOp.json v)) =
        JSValue.obj [("data", v),
                     ("status", JSValue.num (applyOp st (MockOp.json v)).statusCode),
                     ("headers", headersToObj (applyOp st (MockOp.json v)).headers)] := by
      simp only [extractResponseData, hA, Bool.false_eq_true, if_false, hst, hv,
        Bool.not_false, if_true]
    rw [hB]
    simp [getField, findField]

/-- Witness for C2 at concrete inputs: a Response-like return wins over
a builder write (Shape A); with a plain-object return the builder write
wins (Shape B as in the claim scenario); with neither, the raw value is
returned (Shape C). -/
theorem c2_witness :
    ((truthy (JSValue.obj [("body", JSValue.str ("b")), ("status", JSValue.num 201)])
        && !isUndef (getField (JSValue.obj [("body", JSValue.str ("b")), ("status", JSValue.num 201)]) ("body"))
        && !isUndef (getField (JSValue.obj [("body", JSValue.str ("b")), ("status", JSValue.num 201)]) ("status"))) = true
      ∧ extractResponseData (JSValue.obj [("body", JSValue.str ("b")), ("status", JSValue.num 201)])
          (applyOp initMockState (MockOp.json (JSValue.str ("side")))) =
          JSValue.obj [("data", JSValue.str ("b")), ("status", JSValue.num 201), ("headers", JSValue.obj [])])
    ∧ (isUndef (JSValue.str ("written")) = false
      ∧ getField (JSValue.obj [("msg", JSValue.str ("plain"))]) ("body") = JSValue.undef
      ∧ getField (JSValue.obj [("msg", JSValue.str ("plain"))]) ("status") = JSValue.undef
      ∧ getField (extractResponseData (JSValue.obj [("msg", JSValue.str ("plain"))])
            (applyOp initMockState (MockOp.json (JSValue.str ("written"))))) ("data") =
          JSValue.str ("written"))
    ∧ ((truthy (JSValue.num 7)
        && !isUndef (getField (JSValue.num 7) ("body"))
        && !isUndef (getField (JSValue.num 7) ("status"))) = false
      ∧ isUndef (initMockState.responseData) = true
      ∧ extractResponseData (JSValue.num 7) initMockState = JSValue.num 7) := by
  refine ⟨⟨by rfl, ?_⟩, ⟨by rfl, by rfl, by rfl, ?_⟩, ⟨by rfl, by rfl, ?_⟩⟩
  · have h := c2_normalizer_precedence.1
      (JSValue.obj [("body", JSValue.str ("b")), ("status", JSValue.num 201)])
      (applyOp initMockState (MockOp.json (JSValue.str ("side")))) (by rfl)
    rw [h]
    rfl
  · exact c2_normalizer_precedence.2.2.2 initMockState (JSValue.str ("written"))
      (JSValue.obj [("msg", JSValue.str ("plain"))]) (by rfl) (by rfl) (by rfl)
  · exact c2_normalizer_precedence.2.2.1 (JSValue.num 7) initMockState (by rfl) (by rfl)

/-- Name pattern stated by the spec sentence, rendered literally:
a string matches ^[a-z0-9-]\x7b1,50\x7d$ when its length is between 1
and 50 and every character is a lowercase letter, a digit, or a hyphen. -/
def specNamePattern (name : String) : Bool :=
  (1 ≤ name.length && name.length ≤ 50)
    && name.data.all (fun c => c.isLower || c.isDigit || c = '-')

/-- Validator of the source and regex of the spec agree on every name. -/
theorem isValidFunctionName_eq_specNamePattern (name : String) :
    isValidFunctionName name = specNamePattern name := by
  refine Bool.eq_iff_iff.mpr ?_
  obtain ⟨l⟩ := name
  simp only [isValidFunctionName, specNamePattern, String.length, Bool.and_eq_true,
    Bool.not_eq_true', List.isEmpty_eq_false, decide_eq_true_eq]
  have h1e : l ≠ [] ↔ 1 ≤ l.length := by
    constructor
    · intro h
      exact List.length_pos.mpr h
    · intro h
      exact List.length_pos.mp h
  rw [h1e]
  tauto

/-- C5 (amended): any name outside the pattern is rejected with an error
message (whatever the Script parse would do), a blank or oversized
source is likewise rejected with an error message, and a deploy with a
pattern-conforming name and a non-blank source within the limit
succeeds whenever the `new Script` parse of the wrapped source does not
throw.  The amendments: the source must be non-blank (contain a
non-whitespace character), not merely non-empty, because the validator
trims before its emptiness test; and success is additionally
conditioned on the wrapped source compiling, because the `new Script`
construction at line 67 throws on input-determined syntax errors and
the catch then reports failure — the last conjunct shows that throw
path: the parse error comes back as the failure message and the
registry is untouched. -/
theorem c5_deploy_validation :
    (∀ name, isValidFunctionName name = specNamePattern name)
    ∧ (∀ (reg : Registry) (name code : String) (im : List (String × String))
        (se : Option String),
        specNamePattern name = false →
        (deployFunction reg name code im se).1.success = false
        ∧ ((deployFunction reg name code im se).1.error).isSome = true)
    ∧ (∀ (reg : Registry) (name code : String) (im : List (String × String))
        (se : Option String),
        jsTrim code = "" ∨ code.length > 100000 →
        (deployFunction reg name code im se).1.success = false
        ∧ ((deployFunction reg name code im se).1.error).isSome = true)
    ∧ (∀ (reg : Registry) (name code : String) (im : List (String × String)),
        specNamePattern name = true → jsTrim code ≠ "" → code.length ≤ 100000 →
        (deployFunction reg name code im none).1.success = true)
    ∧ (∀ (reg : Registry) (name code : String) (im : List (String × String)) (e : String),
        specNamePattern name = true → jsTrim code ≠ "" → code.length ≤ 100000 →
        (deployFunction reg name code im (some e)).1.success = false
        ∧ (deployFunction reg name code im (some e)).1.error = some e
        ∧ (deployFunction reg name code im (some e)).2 = reg) := by
  refine ⟨isValidFunctionName_eq_specNamePattern, ?_, ?_, ?_, ?_⟩
  · intro reg name code im se h
    have hv : isValidFunctionName name = false := by
      rw [isValidFunctionName_eq_specNamePattern, h]
    simp [deployFunction, hv]
  · intro reg name code im se h
    cases hn : isValidFunctionName name with
    | false => simp [deployFunction, hn]
    | true =>
      rcases h with h | h
      · cases se <;> simp [deployFunction, hn, validateFunctionCode, h]
      · by_cases ht : jsTrim code = ""
        · cases se <;> simp [deployFunction, hn, validateFunctionCode, ht]
        · cases se <;> simp [deployFunction, hn, validateFunctionCode, ht, h]
  · intro reg name code im h ht hl
    have hv : isValidFunctionName name = true := by
      rw [isValidFunctionName_eq_specNamePattern, h]
    have hl' : ¬code.length > 100000 := by omega
    simp [deployFunction, hv, validateFunctionCode, ht, hl']
  · intro reg name code im e h ht hl
    have hv : isValidFunctionName name = true := by
      rw [isValidFunctionName_eq_specNamePattern, h]
    have hl' : ¬code.length > 100000 := by omega
    simp [deployFunction, hv, validateFunctionCode, ht, hl']

/-- Counterexample for C5 as stated: the name is pattern-conforming and
the one-space source is non-empty and within the size limit, yet deploy
fails, because the validator rejects any source that trims to empty. -/
theorem c5_counterexample :
    specNamePattern ("valid-name-1") = true
    ∧ (" " : String) ≠ ""
    ∧ (" " : String).length ≤ 100000
    ∧ (deployFunction [] ("valid-name-1") (" ") [] none).1.success = false
    ∧ (deployFunction [] ("valid-name-1") (" ") [] none).1.error =
        some ("Function code cannot be empty") := by
  exact ⟨by decide, by decide, by decide, by rfl, by rfl⟩

/-- Witness for C5: a malformed name fails (here with a syntax-error
oracle, showing the failure does not depend on the parse outcome), an
empty source fails, and a valid name with a non-blank source whose
wrapped form parses deploys successfully. -/
theorem c5_witness :
    (specNamePattern ("Has_Upper") = false
      ∧ (deployFunction [] ("Has_Upper") ("x") [] (some ("Unexpected token"))).1.success = false)
    ∧ ((jsTrim ("") = "" ∨ ("" : String).length > 100000)
      ∧ (deployFunction [] ("a") ("") [] none).1.success = false)
    ∧ (specNamePattern ("valid-name-1") = true
      ∧ jsTrim ("function f()\x7b\x7d\nf") ≠ ""
      ∧ ("function f()\x7b\x7d\nf" : String).length ≤ 100000
      ∧ (deployFunction [] ("valid-name-1") ("function f()\x7b\x7d\nf") [] none).1.success = true)
    ∧ (specNamePattern ("a") = true
      ∧ jsTrim ("\x7d") ≠ ""
      ∧ ("\x7d" : String).length ≤ 100000
      ∧ (deployFunction [] ("a") ("\x7d") [] (some ("Unexpected token"))).1.success = false
      ∧ (deployFunction [] ("a") ("\x7d") [] (some ("Unexpected token"))).1.error =
          some ("Unexpected token")
      ∧ (deployFunction [] ("a") ("\x7d") [] (some ("Unexpected token"))).2 = []) := by
  refine ⟨⟨by decide, ?_⟩, ⟨Or.inl (by decide), ?_⟩, ⟨by decide, by decide, by decide, ?_⟩,
    ⟨by decide, by decide, by decide, ?_⟩⟩
  · exact (c5_deploy_validation.2.1 [] ("Has_Upper") ("x") [] (some ("Unexpected token")) (by decide)).1
  · exact (c5_deploy_validation.2.2.1 [] ("a") ("") [] none (Or.inl (by decide))).1
  · exact c5_deploy_validation.2.2.2.1 [] ("valid-name-1") ("function f()\x7b\x7d\nf") []
      (by decide) (by decide) (by decide)
  · exact c5_deploy_validation.2.2.2.2 [] ("a") ("\x7d") [] ("Unexpected token")
      (by decide) (by decide) (by decide)

/-- Character admissible in a JavaScript identifier (letters, digits,
underscore, dollar; the leading-character restriction is ignored, which
only widens the set the bare-name theorem covers). -/
def isIdentChar (c : Char) : Bool := c.isAlpha || c.isDigit || c = '_' || c = '$'

/-- Bare identifier: non-empty and made only of identifier characters. -/
def isBareIdent (s : String) : Bool := !s.data.isEmpty && s.data.all isIdentChar

/-- A character search fails on a string all of whose characters fail
the same predicate the searched character satisfies trivially. -/
theorem containsChar_eq_false_of_all (s : String) (p : Char → Bool)
    (hall : s.data.all p = true) (c : Char) (hc : p c = false) :
    containsChar s c = false := by
  cases h : containsChar s c with
  | false => rfl
  | true =>
    obtain ⟨a, ha, hac⟩ := List.any_eq_true.mp h
    have hca : a = c := by simpa using hac
    subst hca
    have := List.all_eq_true.mp hall a ha
    rw [hc] at this
    cases this

/-- C1 (amended): a source whose trimmed last line is a bare identifier
is wrapped with the bare-name wrapper, which runs the source verbatim
and calls that identifier with the request view; a source whose trimmed
last line contains an opening parenthesis, an opening brace, or a
semicolon is wrapped with the general async module-exports wrapper.  The
amendment: the transformer tests only those three characters, so a last
line containing a closing parenthesis or closing brace alone still takes
the bare-name branch (see the counterexample). -/
theorem c1_wrapper_selection :
    (∀ code, isBareIdent (lastLineOf code) = true →
        wrapFunctionForNodeJS code = Wrapped.bareName code (lastLineOf code))
    ∧ (∀ code,
        (containsChar (lastLineOf code) '(' || containsChar (lastLineOf code) '\x7b'
          || containsChar (lastLineOf code) ';') = true →
        wrapFunctionForNodeJS code = Wrapped.general code (extractFunctionNames code)) := by
  constructor
  · intro code h
    rw [isBareIdent, Bool.and_eq_true] at h
    obtain ⟨h1, h2⟩ := h
    have hne : (lastLineOf code).isEmpty = false := by
      cases he : (lastLineOf code).isEmpty with
      | false => rfl
      | true =>
        have : lastLineOf code = "" := (String.isEmpty_iff (lastLineOf code)).mp he
        rw [this] at h1
        cases h1
    have hp : containsChar (lastLineOf code) '(' = false :=
      containsChar_eq_false_of_all _ _ h2 '(' (by decide)
    have hb : containsChar (lastLineOf code) '\x7b' = false :=
      containsChar_eq_false_of_all _ _ h2 '\x7b' (by decide)
    have hs : containsChar (lastLineOf code) ';' = false :=
      containsChar_eq_false_of_all _ _ h2 ';' (by decide)
    simp [wrapFunctionForNodeJS, hne, hp, hb, hs]
  · intro code h
    have hcond : (!(lastLineOf code).isEmpty && !containsChar (lastLineOf code) '('
        && !containsChar (lastLineOf code) '\x7b' && !containsChar (lastLineOf code) ';') = false := by
      rw [Bool.or_eq_true, Bool.or_eq_true] at h
      rcases h with (h' | h') | h' <;> simp [h']
    simp only [wrapFunctionForNodeJS, hcond, Bool.false_eq_true, if_false]

/-- Counterexample for C1 as stated: a source whose final non-blank line
is a lone closing parenthesis — a line that does contain a parenthesis —
is nonetheless given the bare-name wrapper (with the closing parenthesis
as the entry-point name), not the general-convention wrapper, because
the transformer only tests for the opening parenthesis, the opening
brace, and the semicolon. -/
theorem c1_counterexample :
    lastLineOf ("f\n)") = ")"
    ∧ containsChar (lastLineOf ("f\n)")) ')' = true
    ∧ wrapFunctionForNodeJS ("f\n)") = Wrapped.bareName ("f\n)") (")") :=
  ⟨rfl, rfl, rfl⟩

/-- Witness for C1: a bare-identifier last line takes the bare-name
wrapper, and a last line containing parenthesis/semicolon takes the
general wrapper. -/
theorem c1_witness :
    (isBareIdent (lastLineOf ("function add(req) \x7b return req \x7d\nadd")) = true
      ∧ wrapFunctionForNodeJS ("function add(req) \x7b return req \x7d\nadd") =
          Wrapped.bareName ("function add(req) \x7b return req \x7d\nadd")
            (lastLineOf ("function add(req) \x7b return req \x7d\nadd")))
    ∧ ((containsChar (lastLineOf ("foo();")) '(' || containsChar (lastLineOf ("foo();")) '\x7b'
          || containsChar (lastLineOf ("foo();")) ';') = true
      ∧ wrapFunctionForNodeJS ("foo();") =
          Wrapped.general ("foo();") (extractFunctionNames ("foo();"))) :=
  ⟨⟨by rfl, c1_wrapper_selection.1 ("function add(req) \x7b return req \x7d\nadd") (by rfl)⟩,
   ⟨by rfl, c1_wrapper_selection.2 ("foo();") (by rfl)⟩⟩

/-- Dropping a matched run never lengthens a list. -/
theorem length_dropWhile_le (p : Char → Bool) (l : List Char) :
    (l.dropWhile p).length ≤ l.length := by
  induction l with
  | nil => simp
  | cons c l' ih =>
    rw [List.dropWhile_cons]
    split
    · exact Nat.le_trans ih (by simp)
    · simp

/-- Keyword consumption accounts exactly for the keyword length. -/
theorem stripKw_length (ks : List Char) :
    ∀ cs r, stripKw ks cs = some r → r.length + ks.length = cs.length := by
  induction ks with
  | nil =>
    intro cs r h
    simp [stripKw] at h
    simp [h]
  | cons k ks' ih =>
    intro cs r h
    cases cs with
    | nil => simp [stripKw] at h
    | cons c cs' =>
      rw [stripKw] at h
      by_cases hc : c = k
      · rw [if_pos hc] at h
        have := ih cs' r h
        simp [List.length_cons]
        omega
      · rw [if_neg hc] at h
        cases h

/-- The tail matcher only ever consumes input. -/
theorem matchTail_le (b : Bool) (cs : List Char) (n : String) (rest : List Char)
    (h : matchTail b cs = some (n, rest)) : rest.length ≤ cs.length := by
  have h1 : ((cs.dropWhile isSpaceJS).dropWhile isWordChar).length ≤ cs.length :=
    Nat.le_trans (length_dropWhile_le _ _) (length_dropWhile_le _ _)
  simp only [matchTail] at h
  split at h
  · cases h
  · split at h
    · cases h
    · split at h
      · split at h
        · rename_i heq
          have h2 := length_dropWhile_le isSpaceJS ((cs.dropWhile isSpaceJS).dropWhile isWordChar)
          rw [heq] at h2
          simp only [Option.some.injEq, Prod.mk.injEq] at h
          rw [← h.2]
          simp only [List.length_cons] at h2
          omega
        · cases h
      · simp only [Option.some.injEq, Prod.mk.injEq] at h
        rw [← h.2]
        exact h1

/-- A successful regex attempt consumes at least its keyword, so the
remainder is strictly shorter. -/
theorem tryMatch_lt (cs : List Char) (n : String) (rest : List Char)
    (h : tryMatch cs = some (n, rest)) : rest.length < cs.length := by
  simp only [tryMatch] at h
  split at h
  · rename_i r hst
    have hk := stripKw_length kwFunction cs r hst
    have hm := matchTail_le false r n rest h
    simp [kwFunction] at hk
    omega
  · split at h
    · rename_i r hst
      have hk := stripKw_length kwConst cs r hst
      have hm := matchTail_le true r n rest h
      simp [kwConst] at hk
      omega
    · split at h
      · rename_i r hst
        have hk := stripKw_length kwLet cs r hst
        have hm := matchTail_le true r n rest h
        simp [kwLet] at hk
        omega
      · split at h
        · rename_i r hst
          have hk := stripKw_length kwVar cs r hst
          have hm := matchTail_le true r n rest h
          simp [kwVar] at hk
          omega
        · cases h

/-- The scan of the empty input is empty at any fuel. -/
theorem scanAux_nil (fuel : Nat) : scanAux fuel [] = [] := by
  cases fuel <;> rfl

/-- The scan result is independent of the fuel once the fuel covers the
input length. -/
theorem scanAux_fuel_eq (f1 : Nat) :
    ∀ (cs : List Char) (f2 : Nat), cs.length ≤ f1 → cs.length ≤ f2 →
      scanAux f1 cs = scanAux f2 cs := by
  induction f1 with
  | zero =>
    intro cs f2 h1 h2
    have : cs = [] := by
      cases cs with
      | nil => rfl
      | cons c cs' => simp at h1
    subst this
    rw [scanAux_nil, scanAux_nil]
  | succ g ih =>
    intro cs f2 h1 h2
    cases cs with
    | nil => rw [scanAux_nil, scanAux_nil]
    | cons c cs' =>
      cases f2 with
      | zero => simp at h2
      | succ g2 =>
        cases hm : tryMatch (c :: cs') with
        | none =>
          simp only [scanAux, hm]
          exact ih cs' g2 (by simp at h1; omega) (by simp at h2; omega)
        | some pr =>
          obtain ⟨n, rest⟩ := pr
          have hlt := tryMatch_lt (c :: cs') n rest hm
          simp only [scanAux, hm]
          have he : scanAux g rest = scanAux g2 rest := by
            refine ih rest g2 ?_ ?_
            · simp only [List.length_cons] at hlt h1
              omega
            · simp only [List.length_cons] at hlt h2
              omega
          rw [he]

/-- Unfolding the scan at a successful match: the captured name is kept
unless reserved, and scanning resumes after the consumed text. -/
theorem scanDecls_match (cs : List Char) (n : String) (rest : List Char)
    (h : tryMatch cs = some (n, rest)) :
    scanDecls cs =
      if n = "require" ∨ n = "module" then scanDecls rest else n :: scanDecls rest := by
  have hlt := tryMatch_lt cs n rest h
  cases cs with
  | nil => rw [show tryMatch ([] : List Char) = none from rfl] at h; cases h
  | cons c cs' =>
    show scanAux (cs'.length + 1) (c :: cs') = _
    simp only [scanAux, h]
    have he : scanAux cs'.length rest = scanAux rest.length rest := by
      refine scanAux_fuel_eq cs'.length rest rest.length ?_ (Nat.le_refl _)
      simp only [List.length_cons] at hlt
      omega
    rw [he]
    rfl

/-- Unfolding the scan at a failed match: advance one character. -/
theorem scanDecls_skip1 (c : Char) (cs : List Char)
    (h : tryMatch (c :: cs) = none) : scanDecls (c :: cs) = scanDecls cs := by
  show scanAux (cs.length + 1) (c :: cs) = scanDecls cs
  simp only [scanAux, h]
  rfl

/-- No regex alternative can match at a position whose character is not
the first letter of one of the four keywords. -/
theorem tryMatch_none_of_head (c : Char) (cs : List Char)
    (h : (c = 'f' ∨ c = 'c' ∨ c = 'l' ∨ c = 'v') → False) :
    tryMatch (c :: cs) = none := by
  have hf : ¬c = 'f' := fun e => h (Or.inl e)
  have hc : ¬c = 'c' := fun e => h (Or.inr (Or.inl e))
  have hl : ¬c = 'l' := fun e => h (Or.inr (Or.inr (Or.inl e)))
  have hv : ¬c = 'v' := fun e => h (Or.inr (Or.inr (Or.inr e)))
  simp [tryMatch, kwFunction, kwConst, kwLet, kwVar, stripKw, hf, hc, hl, hv]

/-- Skipping a run of characters none of which can start a keyword. -/
theorem scanDecls_skip (pre : List Char)
    (h : ∀ c ∈ pre, (c = 'f' ∨ c = 'c' ∨ c = 'l' ∨ c = 'v') → False) :
    ∀ cs, scanDecls (pre ++ cs) = scanDecls cs := by
  induction pre with
  | nil => intro cs; rfl
  | cons c pre' ih =>
    intro cs
    have hm : tryMatch (c :: (pre' ++ cs)) = none :=
      tryMatch_none_of_head c (pre' ++ cs) (h c (by simp))
    rw [List.cons_append, scanDecls_skip1 c (pre' ++ cs) hm]
    exact ih (fun d hd => h d (by simp [hd])) cs

/-- Failure of a predicate at the head of a list (trivially true for the
empty list). -/
def headNot (p : Char → Bool) : List Char → Prop
  | [] => True
  | c :: _ => p c = false

/-- A maximal run that covers exactly the left part of an append. -/
theorem takeWhile_append_all (p : Char → Bool) (l r : List Char)
    (hl : ∀ c ∈ l, p c = true) (hr : headNot p r) : (l ++ r).takeWhile p = l := by
  induction l with
  | nil =>
    cases r with
    | nil => rfl
    | cons c r' =>
      simp only [List.nil_append, List.takeWhile_cons]
      rw [show headNot p (c :: r') = (p c = false) from rfl] at hr
      simp [hr]
  | cons c l' ih =>
    have hc : p c = true := hl c (by simp)
    rw [List.cons_append, List.takeWhile_cons, hc]
    simp only [if_true]
    rw [ih (fun d hd => hl d (by simp [hd]))]

/-- Dropping that same maximal run leaves exactly the right part. -/
theorem dropWhile_append_all (p : Char → Bool) (l r : List Char)
    (hl : ∀ c ∈ l, p c = true) (hr : headNot p r) : (l ++ r).dropWhile p = r := by
  induction l with
  | nil =>
    cases r with
    | nil => rfl
    | cons c r' =>
      simp only [List.nil_append, List.dropWhile_cons]
      rw [show headNot p (c :: r') = (p c = false) from rfl] at hr
      simp [hr]
  | cons c l' ih =>
    have hc : p c = true := hl c (by simp)
    rw [List.cons_append, List.dropWhile_cons, hc]
    simp only [if_true]
    exact ih (fun d hd => hl d (by simp [hd]))

/-- A word character is never whitespace. -/
theorem word_not_space (c : Char) (h : isWordChar c = true) : isSpaceJS c = false := by
  cases hs : isSpaceJS c with
  | false => rfl
  | true =>
    simp only [isSpaceJS, Bool.or_eq_true, decide_eq_true_eq] at hs
    rcases hs with ((((rfl | rfl) | rfl) | rfl) | rfl) | rfl <;> simp [isWordChar] at h

/-- The tail matcher after a keyword, on one space, a word-character
name, and a remainder that does not start with a word character. -/
theorem matchTail_name (name r : List Char) (hne : name ≠ [])
    (hall : ∀ c ∈ name, isWordChar c = true) (hr : headNot isWordChar r) :
    matchTail false (' ' :: (name ++ r)) = some (String.mk name, r) := by
  obtain ⟨n0, name', rfl⟩ : ∃ n0 name', name = n0 :: name' := by
    cases name with
    | nil => exact absurd rfl hne
    | cons a b => exact ⟨a, b, rfl⟩
  have h0 : isWordChar n0 = true := hall n0 (by simp)
  have h0s : isSpaceJS n0 = false := word_not_space n0 h0
  have hsp : (' ' :: ((n0 :: name') ++ r)).takeWhile isSpaceJS = [' '] := by
    rw [List.takeWhile_cons]
    simp only [show isSpaceJS ' ' = true from rfl, if_true, List.cons_append,
      List.takeWhile_cons, h0s]
    rfl
  have hdp : (' ' :: ((n0 :: name') ++ r)).dropWhile isSpaceJS = (n0 :: name') ++ r := by
    rw [List.dropWhile_cons]
    simp only [show isSpaceJS ' ' = true from rfl, if_true, List.cons_append,
      List.dropWhile_cons, h0s]
    rfl
  have htw : ((n0 :: name') ++ r).takeWhile isWordChar = n0 :: name' :=
    takeWhile_append_all isWordChar (n0 :: name') r hall hr
  have hdw : ((n0 :: name') ++ r).dropWhile isWordChar = r :=
    dropWhile_append_all isWordChar (n0 :: name') r hall hr
  simp only [matchTail, hsp, hdp, htw, hdw]
  rfl

/-- The tail matcher of the const/let/var alternatives on one space, a
word-character name, one space, and the equals sign. -/
theorem matchTail_eqsign (name r : List Char) (hne : name ≠ [])
    (hall : ∀ c ∈ name, isWordChar c = true) :
    matchTail true (' ' :: (name ++ (' ' :: '=' :: r))) = some (String.mk name, r) := by
  have hr : headNot isWordChar (' ' :: '=' :: r) := by
    show isWordChar ' ' = false
    decide
  obtain ⟨n0, name', rfl⟩ : ∃ n0 name', name = n0 :: name' := by
    cases name with
    | nil => exact absurd rfl hne
    | cons a b => exact ⟨a, b, rfl⟩
  have h0 : isWordChar n0 = true := hall n0 (by simp)
  have h0s : isSpaceJS n0 = false := word_not_space n0 h0
  have hsp : (' ' :: ((n0 :: name') ++ (' ' :: '=' :: r))).takeWhile isSpaceJS = [' '] := by
    rw [List.takeWhile_cons]
    simp only [show isSpaceJS ' ' = true from rfl, if_true, List.cons_append,
      List.takeWhile_cons, h0s]
    rfl
  have hdp : (' ' :: ((n0 :: name') ++ (' ' :: '=' :: r))).dropWhile isSpaceJS =
      (n0 :: name') ++ (' ' :: '=' :: r) := by
    rw [List.dropWhile_cons]
    simp only [show isSpaceJS ' ' = true from rfl, if_true, List.cons_append,
      List.dropWhile_cons, h0s]
    rfl
  have htw : ((n0 :: name') ++ (' ' :: '=' :: r)).takeWhile isWordChar = n0 :: name' :=
    takeWhile_append_all isWordChar (n0 :: name') (' ' :: '=' :: r) hall hr
  have hdw : ((n0 :: name') ++ (' ' :: '=' :: r)).dropWhile isWordChar = ' ' :: '=' :: r :=
    dropWhile_append_all isWordChar (n0 :: name') (' ' :: '=' :: r) hall hr
  have hde : (' ' :: '=' :: r).dropWhile isSpaceJS = '=' :: r := by
    rw [List.dropWhile_cons]
    simp only [show isSpaceJS ' ' = true from rfl, if_true, List.dropWhile_cons,
      show isSpaceJS '=' = false from rfl]
    rfl
  simp only [matchTail, hsp, hdp, htw, hdw, hde]
  rfl

/-- Stripping a keyword off an input that starts with it. -/
theorem stripKw_append_self (ks : List Char) : ∀ cs, stripKw ks (ks ++ cs) = some cs := by
  induction ks with
  | nil => intro cs; rfl
  | cons k ks' ih => intro cs; simp [stripKw, ih]

/-- The regex attempt on a function declaration head. -/
theorem tryMatch_function (name r : List Char) (hne : name ≠ [])
    (hall : ∀ c ∈ name, isWordChar c = true) (hr : headNot isWordChar r) :
    tryMatch (kwFunction ++ (' ' :: (name ++ r))) = some (String.mk name, r) := by
  have h1 : stripKw kwFunction (kwFunction ++ (' ' :: (name ++ r))) =
      some (' ' :: (name ++ r)) := stripKw_append_self kwFunction (' ' :: (name ++ r))
  simp only [tryMatch, h1]
  exact matchTail_name name r hne hall hr

/-- The regex attempt on a const declaration head. -/
theorem tryMatch_const (name r : List Char) (hne : name ≠ [])
    (hall : ∀ c ∈ name, isWordChar c = true) :
    tryMatch (kwConst ++ (' ' :: (name ++ (' ' :: '=' :: r)))) = some (String.mk name, r) := by
  have h0 : stripKw kwFunction (kwConst ++ (' ' :: (name ++ (' ' :: '=' :: r)))) = none := by
    simp [kwFunction, kwConst, stripKw]
  have h1 : stripKw kwConst (kwConst ++ (' ' :: (name ++ (' ' :: '=' :: r)))) =
      some (' ' :: (name ++ (' ' :: '=' :: r))) :=
    stripKw_append_self kwConst (' ' :: (name ++ (' ' :: '=' :: r)))
  simp only [tryMatch, h0, h1]
  exact matchTail_eqsign name r hne hall

/-- Characters between the outer function name and the nested const
keyword in the nested-declaration template. -/
def sepChars : List Char := ['(', 'r', 'e', 'q', ')', ' ', '\x7b', ' ']

/-- Characters after the equals sign in the nested-declaration
template. -/
def tailChars : List Char := [' ', '1', ';', ' ', '\x7d']

/-- Non-empty name made of regex word characters. -/
def isWordIdent (s : String) : Bool := !s.data.isEmpty && s.data.all isWordChar

/-- Source template with one top-level function declaration and one
declaration nested inside its body. -/
def declTemplate (outer inner : String) : String :=
  "function " ++ outer ++ "(req) \x7b const " ++ inner ++ " = 1; \x7d"

/-- C9 (amended): the declaration-name scan is a flat pass over the
whole text, so it reports nested declarations too: on a source declaring
`inner` inside the body of function `outer`, it returns the outer name
followed by the nested inner name, in order of appearance, with the
inner name omitted exactly when it is one of the reserved names require
and module. -/
theorem c9_declaration_scan (outer inner : String)
    (houter : isWordIdent outer = true) (hinner : isWordIdent inner = true)
    (ho1 : outer ≠ "require") (ho2 : outer ≠ "module") :
    extractFunctionNames (declTemplate outer inner) =
      outer :: (if inner = "require" ∨ inner = "module" then [] else [inner]) := by
  obtain ⟨lo⟩ := outer
  obtain ⟨li⟩ := inner
  rw [isWordIdent, Bool.and_eq_true] at houter hinner
  obtain ⟨ho_ne, ho_all⟩ := houter
  obtain ⟨hi_ne, hi_all⟩ := hinner
  have ho_ne' : lo ≠ [] := by
    rw [Bool.not_eq_true'] at ho_ne
    exact (List.isEmpty_eq_false).mp ho_ne
  have hi_ne' : li ≠ [] := by
    rw [Bool.not_eq_true'] at hi_ne
    exact (List.isEmpty_eq_false).mp hi_ne
  have ho_all' : ∀ c ∈ lo, isWordChar c = true := fun c hc => List.all_eq_true.mp ho_all c hc
  have hi_all' : ∀ c ∈ li, isWordChar c = true := fun c hc => List.all_eq_true.mp hi_all c hc
  have hdata : (declTemplate (String.mk lo) (String.mk li)).data =
      kwFunction ++ (' ' :: (lo ++ (sepChars ++ (kwConst ++
        (' ' :: (li ++ (' ' :: '=' :: tailChars))))))) := by
    simp only [declTemplate, String.data_append]
    simp [kwFunction, kwConst, sepChars, tailChars, List.append_assoc]
  have hstep : extractFunctionNames (declTemplate (String.mk lo) (String.mk li)) =
      scanDecls (declTemplate (String.mk lo) (String.mk li)).data := rfl
  rw [hstep, hdata]
  have hr1 : headNot isWordChar (sepChars ++ (kwConst ++
      (' ' :: (li ++ (' ' :: '=' :: tailChars))))) := by
    show isWordChar '(' = false
    decide
  rw [scanDecls_match _ _ _ (tryMatch_function lo _ ho_ne' ho_all' hr1)]
  have hno : ¬(String.mk lo = "require" ∨ String.mk lo = "module") := by
    rintro (h | h)
    · exact ho1 h
    · exact ho2 h
  rw [if_neg hno]
  rw [scanDecls_skip sepChars (by decide)]
  rw [scanDecls_match _ _ _ (tryMatch_const li tailChars hi_ne' hi_all')]
  rfl

/-- Counterexample for C9 as stated: the declaration `const g = 1;` is
nested inside the body of function f, yet the scan reports g alongside
f, because the scan is a flat regex pass with no notion of nesting
depth; the claim requires the result to be exactly the top-level names
[f]. -/
theorem c9_counterexample :
    extractFunctionNames ("function f(req) \x7b const g = 1; \x7d") = ["f", "g"] := rfl

/-- Witness for C9 at concrete identifiers. -/
theorem c9_witness :
    isWordIdent ("handler") = true ∧ isWordIdent ("nested") = true
    ∧ ("handler" : String) ≠ "require" ∧ ("handler" : String) ≠ "module"
    ∧ extractFunctionNames (declTemplate ("handler") ("nested")) =
        "handler" :: (if ("nested" : String) = "require" ∨ ("nested" : String) = "module"
          then [] else ["nested"]) :=
  ⟨by decide, by decide, by decide, by decide,
   c9_declaration_scan ("handler") ("nested") (by decide) (by decide) (by decide) (by decide)⟩
